import Mathlib

/-!
Verification of `cvat/apps/engine/media_extractors.py` against its
natural-language specification.

The Python classes are shallowly embedded as Lean state machines:

* `RandomAccessIterator` (source lines 113-145) — the wrapped restartable
  iterable is modelled as a `List α` (a source that yields the same value
  sequence on every fresh iteration); the live iterator handle is the list of
  values not yet consumed; the integer cursor `pos` (which starts at `-1`) is
  stored shifted by one as `nextPos = pos + 1 : Nat`.  A raised exception
  (`StopIteration` escaping `__getitem__`) is modelled as a `none` result.
* `CachingMediaIterator` (lines 153-198) — the dict cache is an association
  list keyed by the frame index; `min(dict.keys())` and `dict.pop` are
  modelled directly.
* `ImageListReader.__init__/__len__` (lines 282-374), `VideoReader`
  decode/filter/count (lines 610-751), `VideoReaderWithManifest`
  keyframe lookup (lines 782-792), the chunk writers (lines 892-1127) and
  `ValidateDimension.convert_bin_to_pcd` (lines 1240-1273) are embedded
  below, each next to the theorems that use it.

Machine integers are modelled as `Nat` (all the quantities involved — sizes,
indices, frame counts — are non-negative in the source), except where the
source manipulates possibly negative values (`pts`, quality), which use `Int`.
-/

namespace MediaExtractors

/-! ## RandomAccessIterator (media_extractors.py lines 113-145) -/

/-- State of `RandomAccessIterator`: `iterator` is the current underlying
iterator (`none` when closed / not yet started, otherwise the values not yet
consumed from the restartable source), and `nextPos` is the cursor shifted by
one (`self.pos = nextPos - 1`, so the initial `pos = -1` is `nextPos = 0`). -/
structure RandomAccessIterator (α : Type) where
  iterator : Option (List α)
  nextPos : Nat
deriving Repr

/-- Fresh `RandomAccessIterator.__init__` state: no live iterator, `pos = -1`. -/
def RandomAccessIterator.init (α : Type) : RandomAccessIterator α := ⟨none, 0⟩

/-- The `while self.pos < idx: v = next(self.iterator); self.pos += 1` loop of
`RandomAccessIterator.__getitem__`.  Arguments: remaining iterator values,
`nextPos = pos + 1`, the requested index, and the current `v` (initially
`None`).  Returns the final `v` (`none` when `next` raised `StopIteration`,
in which case the exception propagates out of `__getitem__`), the remaining
iterator values, and the final `nextPos`. -/
def raiLoop (it : List α) (nextPos idx : Nat) (v : Option α) :
    Option α × List α × Nat :=
  if nextPos ≤ idx then
    match it with
    | [] => (none, [], nextPos)
    | x :: rest => raiLoop rest (nextPos + 1) idx (some x)
  else
    (v, it, nextPos)
termination_by idx + 1 - nextPos
decreasing_by omega

/-- The tail of `RandomAccessIterator.__getitem__` after the reset decision:
run the advance loop on the live iterator and store the remaining values and
cursor back into the object. -/
def raiFetch (s1 : RandomAccessIterator α) (idx : Nat) :
    Option α × RandomAccessIterator α :=
  match s1.iterator with
  | none => (none, s1)
  | some it =>
    match raiLoop it s1.nextPos idx none with
    | (v, it1, nextPos1) => (v, ⟨some it1, nextPos1⟩)

/-- `RandomAccessIterator.__getitem__(idx)`: if the iterator is closed or
`idx <= self.pos` (i.e. `idx < nextPos`), reset — restart a fresh iterator on
the source from the beginning — then advance by discarding values until the
cursor reaches `idx`.  The first component is the returned value (`none` when
the access raises `StopIteration`). -/
def RandomAccessIterator.getitem (src : List α) (s : RandomAccessIterator α)
    (idx : Nat) : Option α × RandomAccessIterator α :=
  raiFetch (if s.iterator.isNone ∨ idx < s.nextPos then ⟨some src, 0⟩ else s) idx

/-- Well-formedness of a `RandomAccessIterator` state over source `src`:
either closed, or the live iterator holds exactly the values of `src` not yet
consumed. -/
def RandomAccessIterator.Inv (src : List α) (s : RandomAccessIterator α) : Prop :=
  s.iterator = none ∨ (s.iterator = some (src.drop s.nextPos) ∧ s.nextPos ≤ src.length)

/-- Folding a sequence of `__getitem__` accesses over the iterator state. -/
def RandomAccessIterator.run (src : List α) (s : RandomAccessIterator α)
    (accesses : List Nat) : RandomAccessIterator α :=
  accesses.foldl (fun s i => (RandomAccessIterator.getitem src s i).2) s

theorem raiLoop_spec (src : List α) (it : List α) (np idx : Nat) (v : Option α)
    (hit : it = src.drop np) (hle : np ≤ idx) (hlen : np ≤ src.length) :
    raiLoop it np idx v =
      if h : idx < src.length then
        (some (src.get ⟨idx, h⟩), src.drop (idx + 1), idx + 1)
      else
        (none, [], src.length) := by
  induction it generalizing np v with
  | nil =>
    have hlen2 : src.length ≤ np := by
      have h0 := congrArg List.length hit
      simp only [List.length_nil, List.length_drop] at h0
      omega
    have hnp : np = src.length := le_antisymm hlen hlen2
    rw [raiLoop.eq_def]
    have hni : ¬ idx < src.length := by omega
    simp [hle, hni, hnp]
  | cons x rest ih =>
    have hnp : np < src.length := by
      by_contra hc
      push_neg at hc
      rw [List.drop_eq_nil_iff.mpr hc] at hit
      exact List.cons_ne_nil x rest hit
    rw [List.drop_eq_getElem_cons hnp] at hit
    have hx : x = src[np] := (List.cons.injEq _ _ _ _ ▸ hit).1
    have hrest : rest = src.drop (np + 1) := (List.cons.injEq _ _ _ _ ▸ hit).2
    rw [raiLoop.eq_def]
    simp only [if_pos hle]
    by_cases hcase : np = idx
    · subst hcase
      rw [raiLoop.eq_def]
      have hn1 : ¬ np + 1 ≤ np := by omega
      simp [hn1, hnp, hx, hrest, List.get_eq_getElem]
    · exact ih (np + 1) (some x) hrest (by omega) (by omega)

theorem raiFetch_spec (src : List α) (it : List α) (np idx : Nat)
    (hit : it = src.drop np) (hle : np ≤ idx) (hlen : np ≤ src.length) :
    (raiFetch (⟨some it, np⟩ : RandomAccessIterator α) idx).1 = src.get? idx ∧
      RandomAccessIterator.Inv src (raiFetch (⟨some it, np⟩ : RandomAccessIterator α) idx).2 := by
  have hloop := raiLoop_spec src it np idx none hit hle hlen
  by_cases hidx : idx < src.length
  · rw [dif_pos hidx] at hloop
    unfold raiFetch
    simp only [hloop]
    constructor
    · simp [List.get?_eq_getElem?, List.getElem?_eq_getElem hidx]
    · refine Or.inr ⟨rfl, ?_⟩
      show idx + 1 ≤ src.length
      omega
  · rw [dif_neg hidx] at hloop
    unfold raiFetch
    simp only [hloop]
    constructor
    · simp [List.get?_eq_getElem?, List.getElem?_eq_none (by omega : src.length ≤ idx)]
    · right
      simp

theorem rai_getitem_spec (src : List α) (s : RandomAccessIterator α) (idx : Nat)
    (hinv : RandomAccessIterator.Inv src s) :
    (RandomAccessIterator.getitem src s idx).1 = src.get? idx ∧
      RandomAccessIterator.Inv src (RandomAccessIterator.getitem src s idx).2 := by
  unfold RandomAccessIterator.getitem
  by_cases hreset : s.iterator.isNone = true ∨ idx < s.nextPos
  · rw [if_pos hreset]
    exact raiFetch_spec src src 0 idx (by simp) (Nat.zero_le idx) (Nat.zero_le _)
  · rw [if_neg hreset]
    push_neg at hreset
    obtain ⟨hiter, hpos⟩ := hreset
    rcases hinv with hnone | ⟨hsome, hlen⟩
    · rw [hnone] at hiter
      simp at hiter
    · have hs : s = (⟨some (src.drop s.nextPos), s.nextPos⟩ : RandomAccessIterator α) := by
        cases s
        simp_all
      rw [hs]
      exact raiFetch_spec src (src.drop s.nextPos) s.nextPos idx rfl (by omega) hlen

theorem rai_run_inv (src : List α) (accesses : List Nat) (s : RandomAccessIterator α)
    (hinv : RandomAccessIterator.Inv src s) :
    RandomAccessIterator.Inv src (RandomAccessIterator.run src s accesses) := by
  induction accesses generalizing s with
  | nil => exact hinv
  | cons a rest ih =>
    exact ih _ (rai_getitem_spec src s a hinv).2

/-- C7: over a restartable source (modelled as the list of values it yields on
every fresh iteration), `RandomAccessIterator.__getitem__(i)` returns the
`i`-th value of the source — the value returned after any finite history of
earlier accesses, monotonic or not, is always `src.get? i` (and `none` exactly
when the access raises `StopIteration`, i.e. `i` is out of range).  In
particular two access sequences ending in the same index return equal values.
The restart-and-discard mechanism for `idx ≤ pos` is embedded literally in
`RandomAccessIterator.getitem`. -/
theorem randomAccessIterator_order_independent (α : Type) (src : List α)
    (accesses : List Nat) (i : Nat) :
    (RandomAccessIterator.getitem src
        (RandomAccessIterator.run src (RandomAccessIterator.init α) accesses) i).1 =
      src.get? i := by
  have hinv : RandomAccessIterator.Inv src (RandomAccessIterator.init α) :=
    Or.inl rfl
  exact (rai_getitem_spec src _ i (rai_run_inv src accesses _ hinv)).1

/-! ## CachingMediaIterator (media_extractors.py lines 153-198)

`__init__` sets `self.used_cache_memory = 0`; `__getitem__` reads
`self.used_cache_memory` in the eviction condition and in the insertion guard
but the source never writes to it again — neither insertion nor eviction
updates it.  The embedding reproduces this faithfully.  -/

/-- `CachingMediaIterator._CacheItem`: a cached `(value, size)` pair. -/
structure CacheItem (α : Type) where
  value : α
  size : Nat
deriving Repr

/-- State of `CachingMediaIterator`: the inherited `RandomAccessIterator`
state, the two limits, the tracked `used_cache_memory` counter, and the
`self._cache` dict (an association list keyed by frame index, in insertion
order). -/
structure CachingMediaIterator (α : Type) where
  rai : RandomAccessIterator α
  maxCacheEntries : Nat
  maxCacheMemory : Nat
  usedCacheMemory : Nat
  cache : List (Nat × CacheItem α)
deriving Repr

/-- `CachingMediaIterator.__init__`. -/
def CachingMediaIterator.init (α : Type) (maxCacheMemory maxCacheEntries : Nat) :
    CachingMediaIterator α :=
  ⟨RandomAccessIterator.init α, maxCacheEntries, maxCacheMemory, 0, []⟩

/-- `self._cache.get(idx)` on the association list. -/
def cacheGet (idx : Nat) : List (Nat × CacheItem α) → Option (CacheItem α)
  | [] => none
  | (k, item) :: rest => if k = idx then some item else cacheGet idx rest

/-- `min(self._cache.keys())`; `none` models the `ValueError` that
`min` raises on an empty dict. -/
def cacheMinKey (cache : List (Nat × CacheItem α)) : Option Nat :=
  match cache.map (fun p => p.1) with
  | [] => none
  | k :: ks => some (ks.foldl Nat.min k)

/-- `self._cache.pop(min_key)`. -/
def cachePop (k : Nat) (cache : List (Nat × CacheItem α)) : List (Nat × CacheItem α) :=
  cache.filter (fun p => p.1 ≠ k)

theorem foldl_min_mem (k : Nat) (ks : List Nat) : ks.foldl Nat.min k ∈ k :: ks := by
  induction ks generalizing k with
  | nil => simp
  | cons a rest ih =>
    simp only [List.foldl_cons]
    rcases List.mem_cons.mp (ih (Nat.min k a)) with h3 | h3
    · have hmin : Nat.min k a = k ∨ Nat.min k a = a := by
        rcases Nat.le_total k a with hle | hle
        · exact Or.inl (Nat.min_eq_left hle)
        · exact Or.inr (Nat.min_eq_right hle)
      rw [h3]
      rcases hmin with heq | heq <;> rw [heq] <;> simp
    · simp [h3]

theorem cacheMinKey_mem (cache : List (Nat × CacheItem α)) (m : Nat)
    (h : cacheMinKey cache = some m) : m ∈ cache.map (fun p => p.1) := by
  unfold cacheMinKey at h
  match hmap : cache.map (fun p => p.1) with
  | [] => rw [hmap] at h; simp at h
  | k :: ks =>
    rw [hmap] at h
    have hm : ks.foldl Nat.min k = m := by simpa using h
    rw [hmap, ← hm]
    exact foldl_min_mem k ks

theorem cachePop_min_length (cache : List (Nat × CacheItem α)) (m : Nat)
    (h : cacheMinKey cache = some m) : (cachePop m cache).length < cache.length := by
  unfold cachePop
  rw [List.length_filter_lt_length_iff_exists]
  obtain ⟨p, hp, hpk⟩ := List.mem_map.mp (cacheMinKey_mem cache m h)
  exact ⟨p, hp, by simp [hpk]⟩

/-- The eviction loop of `CachingMediaIterator.__getitem__`:
`while len(cache) + 1 > max_entries or used + value_size > max_memory: pop min`.
`used` is `self.used_cache_memory`, which the loop reads but never updates.
Returns `none` when `min` is called on an empty dict (a `ValueError` that
propagates out of `__getitem__`). -/
def evictLoop (maxEntries maxMem used valueSize : Nat)
    (cache : List (Nat × CacheItem α)) : Option (List (Nat × CacheItem α)) :=
  if maxEntries < cache.length + 1 ∨ maxMem < used + valueSize then
    match h : cacheMinKey cache with
    | none => none
    | some m => evictLoop maxEntries maxMem used valueSize (cachePop m cache)
  else
    some cache
termination_by cache.length
decreasing_by exact cachePop_min_length cache _ h

/-- `CachingMediaIterator.__getitem__(idx)` (lines 180-198): cache hit returns
the stored value; on a miss the value is fetched through
`RandomAccessIterator.__getitem__`, the eviction loop runs, and the value is
inserted only if `used_cache_memory + value_size <= max_cache_memory`.
`sizeFn` models `self._get_object_size` (the caller-supplied size callback or
`obj.get_size()`).  A `none` result models an exception escaping
`__getitem__` (`StopIteration` from the fetch or `ValueError` from `min`). -/
def CachingMediaIterator.getitem (src : List α) (sizeFn : α → Nat)
    (s : CachingMediaIterator α) (idx : Nat) : Option α × CachingMediaIterator α :=
  match cacheGet idx s.cache with
  | some item => (some item.value, s)
  | none =>
    match RandomAccessIterator.getitem src s.rai idx with
    | (none, rai1) => (none, { s with rai := rai1 })
    | (some value, rai1) =>
      let valueSize := sizeFn value
      match evictLoop s.maxCacheEntries s.maxCacheMemory s.usedCacheMemory valueSize s.cache with
      | none => (none, { s with rai := rai1, cache := [] })
      | some cache1 =>
        let cache2 :=
          if s.usedCacheMemory + valueSize ≤ s.maxCacheMemory then
            cache1 ++ [(idx, ⟨value, valueSize⟩)]
          else cache1
        (some value, { s with rai := rai1, cache := cache2 })

/-- Total bytes actually held by the cache: the sum of the stored entry sizes
(the spec-level `used_memory == sum(entry.size)` quantity). -/
def cacheTotalSize (cache : List (Nat × CacheItem α)) : Nat :=
  (cache.map (fun p => p.2.size)).sum

/-- C1 failing run: `max_cache_memory = 10`, `max_cache_entries = 10`, source
values of size 6 at indices 0 and 1 (size callback = identity), accesses
`[0, 1]`. -/
def c1Run : CachingMediaIterator Nat :=
  (CachingMediaIterator.getitem [6, 6] (fun v => v)
    (CachingMediaIterator.getitem [6, 6] (fun v => v)
      (CachingMediaIterator.init Nat 10 10) 0).2 1).2

/-- C1: the bounded-memory guarantee fails on the code.  With
`max_cache_memory = 10` and two accesses to values of size 6, the second
access completes normally, its value IS cached, and the cache then holds
12 bytes, exceeding the 10-byte budget — while the tracked
`used_cache_memory` field still reads 0 because the source never updates it.
Neither disjunct of the claim holds after the second access. -/
theorem cachingMediaIterator_memory_bound_violated :
    (cacheGet 1 c1Run.cache).isSome = true ∧
      c1Run.maxCacheMemory = 10 ∧
      cacheTotalSize c1Run.cache = 12 ∧
      c1Run.usedCacheMemory = 0 := by
  have h : c1Run = ⟨⟨some [], 2⟩, 10, 10, 0, [(0, ⟨6, 6⟩), (1, ⟨6, 6⟩)]⟩ := by
    simp [c1Run, CachingMediaIterator.init, CachingMediaIterator.getitem,
      RandomAccessIterator.getitem, RandomAccessIterator.init, raiFetch, raiLoop,
      evictLoop, cacheGet, cacheMinKey, cachePop]
  rw [h]
  simp [cacheGet, cacheTotalSize]

/-- C2 failing run: one access to a value of size 5 under budgets
`max_cache_memory = 10`, `max_cache_entries = 10`. -/
def c2Run : CachingMediaIterator Nat :=
  (CachingMediaIterator.getitem [5] (fun v => v)
    (CachingMediaIterator.init Nat 10 10) 0).2

/-- C2: the CacheState accounting invariant `used_memory == sum(entry.size)`
fails on the code after the very first caching access: the entry of size 5 is
cached but `used_cache_memory` still reads 0 (the source never updates it). -/
theorem cachingMediaIterator_accounting_violated :
    c2Run.usedCacheMemory = 0 ∧ cacheTotalSize c2Run.cache = 5 := by
  have h : c2Run = ⟨⟨some [], 1⟩, 10, 10, 0, [(0, ⟨5, 5⟩)]⟩ := by
    simp [c2Run, CachingMediaIterator.init, CachingMediaIterator.getitem,
      RandomAccessIterator.getitem, RandomAccessIterator.init, raiFetch, raiLoop,
      evictLoop, cacheGet, cacheMinKey, cachePop]
  rw [h]
  simp [cacheTotalSize]

/-- C3: a cache-miss access whose fetched value exceeds `max_cache_memory`
(size 11, budget 10) does NOT return the value silently uncached: the eviction
loop empties the dict and then `min(self._cache.keys())` raises `ValueError`,
which propagates to the caller (modelled as a `none` result — no value is
returned). -/
theorem cachingMediaIterator_oversized_value_raises :
    (CachingMediaIterator.getitem [11] (fun v => v)
      (CachingMediaIterator.init Nat 10 10) 0).1 = none := by
  simp [CachingMediaIterator.init, CachingMediaIterator.getitem,
    RandomAccessIterator.getitem, RandomAccessIterator.init, raiFetch, raiLoop,
    evictLoop, cacheGet, cacheMinKey, cachePop]

/-! ## ImageListReader (media_extractors.py lines 281-374)

`__init__` raises when the source list is empty, normalizes `stop` with
`if not stop:` (Python truthiness: both `None` and `0` take the default
branch `stop = len(source_path) - 1`; any other value is clamped with
`min(len(source_path) - 1, stop)`), clamps `step = max(step, 1)` and asserts
`stop >= start`.  Sorting the source list does not change its length, so the
reader is embedded with the length of the source list; `frame_range` is
`range(self._start, self._stop + 1, self._step)` and `__len__` is its
length. -/

/-- Python `range(start, stop, step)` as a list, for `step >= 1`
(`range` with `step = 0` raises `ValueError`; callers here always pass a
clamped `step >= 1`, and the embedding returns `[]` on that dead branch). -/
def pyRange (start stop1 step : Nat) : List Nat :=
  if h : 0 < step ∧ start < stop1 then start :: pyRange (start + step) stop1 step
  else []
termination_by stop1 - start
decreasing_by omega

/-- The `stop` normalization of `ImageListReader.__init__`:
`if not stop: stop = len(source_path) - 1`
`else: stop = min(len(source_path) - 1, stop)`. -/
def normStop (sourceLen : Nat) (stop : Option Nat) : Nat :=
  match stop with
  | none => sourceLen - 1
  | some s => if s = 0 then sourceLen - 1 else Nat.min (sourceLen - 1) s

/-- The state `ImageListReader.__init__` leaves behind: the sorted source
list's length and the normalized `(start, stop, step)`. -/
structure ImageListReader where
  sourceLen : Nat
  start : Nat
  stop : Nat
  step : Nat
deriving Repr, DecidableEq

/-- `ImageListReader.frame_range`: `range(self._start, self._stop + 1, self._step)`. -/
def ImageListReader.frame_range (r : ImageListReader) : List Nat :=
  pyRange r.start (r.stop + 1) r.step

/-- `ImageListReader.__len__`: `len(self.frame_range)`. -/
def ImageListReader.len (r : ImageListReader) : Nat :=
  r.frame_range.length

/-- `ImageListReader.__init__(source_path, step, start, stop)`.  `stop = none`
models passing `stop=None`; `.error` models the `'No image found'` exception
and the `assert stop >= start` failure. -/
def ImageListReader.init (sourceLen : Nat) (step : Nat) (start : Nat)
    (stop : Option Nat) : Except String ImageListReader :=
  if sourceLen = 0 then .error "No image found"
  else
    let stop1 := normStop sourceLen stop
    let step1 := Nat.max step 1
    if stop1 < start then .error "assert stop >= start"
    else .ok ⟨sourceLen, start, stop1, step1⟩

/-- C5 counterexample: over a 5-element source with `start=0`, `step=1` and an
explicitly supplied `stop=0`, the claim predicts
`len(reader) == len(range(0, min(len(source)-1, 0) + 1, 1)) == 1`, but the
reader's length is 5: `if not stop:` treats the supplied `0` as "not
supplied" and defaults `stop` to `len(source) - 1 = 4`. -/
theorem imageListReader_len_claim_fails_on_stop_zero :
    (ImageListReader.init 5 1 0 (some 0)).map ImageListReader.len = .ok 5 ∧
      (pyRange 0 (Nat.min (5 - 1) 0 + 1) 1).length = 1 := by
  constructor
  · simp [ImageListReader.init, normStop, Except.map, ImageListReader.len,
      ImageListReader.frame_range, pyRange]
  · simp [pyRange]

/-- C5 (amended): for every non-empty source and parameters accepted by
`__init__` (the `assert stop >= start` passes), `len(reader)` equals
`len(range(start, stop1 + 1, max(step, 1)))` where `stop1` is
`len(source) - 1` when `stop` is not supplied OR supplied as `0` (Python
truthiness of `if not stop:`), and `min(len(source) - 1, stop)` otherwise. -/
theorem imageListReader_len_eq_range_len (sourceLen step start : Nat)
    (stop : Option Nat) (hne : 0 < sourceLen)
    (hassert : start ≤ normStop sourceLen stop) :
    (ImageListReader.init sourceLen step start stop).map ImageListReader.len =
      .ok (pyRange start (normStop sourceLen stop + 1) (Nat.max step 1)).length := by
  unfold ImageListReader.init
  have h0 : ¬ sourceLen = 0 := by omega
  have h1 : ¬ normStop sourceLen stop < start := by omega
  simp only [h0, if_false, h1, if_false, Except.map, ImageListReader.len,
    ImageListReader.frame_range]

/-- C5 witness: source of 5 entries, `start=1`, `stop=7` (clamped to 4),
`step=2` gives `len(range(1, 5, 2)) = 2`. -/
theorem imageListReader_len_eq_range_len_witness :
    (ImageListReader.init 5 2 1 (some 7)).map ImageListReader.len =
      .ok (pyRange 1 (normStop 5 (some 7) + 1) (Nat.max 2 1)).length ∧
      (pyRange 1 (normStop 5 (some 7) + 1) (Nat.max 2 1)).length = 2 := by
  constructor
  · exact imageListReader_len_eq_range_len 5 2 1 (some 7) (by omega)
      (by simp [normStop])
  · simp [normStop, pyRange]

/-! ## VideoReaderWithManifest._get_nearest_left_key_frame (lines 782-792) -/

/-- One keyframe entry of the video manifest: original frame `number` and
presentation timestamp `pts`. -/
structure ManifestEntry where
  number : Nat
  pts : Int
deriving Repr, DecidableEq

/-- Python stdlib `bisect.bisect(manifest, frame_id, key=...number)` (an
external library function): its documented contract on a list sorted by the
key is the right insertion point, i.e. the number of leading entries whose
key is `<= frame_id`. -/
def bisectByNumber (manifest : List ManifestEntry) (frameId : Nat) : Nat :=
  (manifest.takeWhile (fun e => e.number ≤ frameId)).length

/-- `VideoReaderWithManifest._get_nearest_left_key_frame(frame_id)`: take the
entry just before the insertion point when there is one, otherwise
`(0, 0)`. -/
def get_nearest_left_key_frame (manifest : List ManifestEntry) (frameId : Nat) :
    Nat × Int :=
  if bisectByNumber manifest frameId ≠ 0 then
    match manifest.get? (bisectByNumber manifest frameId - 1) with
    | some e => (e.number, e.pts)
    | none => (0, 0)
  else (0, 0)

theorem bisect_cons_pos (a : ManifestEntry) (rest : List ManifestEntry)
    (frameId : Nat) (hpa : a.number ≤ frameId) :
    bisectByNumber (a :: rest) frameId = bisectByNumber rest frameId + 1 := by
  unfold bisectByNumber
  rw [List.takeWhile_cons, if_pos (by simpa using hpa)]
  simp

theorem get_nearest_cons_shift (a : ManifestEntry) (rest : List ManifestEntry)
    (frameId : Nat) (hpa : a.number ≤ frameId)
    (hne : bisectByNumber rest frameId ≠ 0) :
    get_nearest_left_key_frame (a :: rest) frameId =
      get_nearest_left_key_frame rest frameId := by
  unfold get_nearest_left_key_frame
  rw [bisect_cons_pos a rest frameId hpa]
  rw [if_pos (by omega), if_pos hne]
  have h1 : bisectByNumber rest frameId + 1 - 1 =
      (bisectByNumber rest frameId - 1) + 1 := by omega
  rw [h1, List.get?_cons_succ]

theorem get_nearest_cons_head (a : ManifestEntry) (rest : List ManifestEntry)
    (frameId : Nat) (hpa : a.number ≤ frameId)
    (hb0 : bisectByNumber rest frameId = 0) :
    get_nearest_left_key_frame (a :: rest) frameId = (a.number, a.pts) := by
  unfold get_nearest_left_key_frame
  rw [bisect_cons_pos a rest frameId hpa, hb0]
  simp

/-- C6: with the manifest ordered ascending by frame number, the lookup
returns the entry with the largest frame number at or before the requested
id whenever one exists; when the manifest has no entries at all it returns
frame number 0 and timestamp 0 (first conjunct). -/
theorem nearest_left_key_frame_correct (manifest : List ManifestEntry)
    (frameId : Nat)
    (hsorted : manifest.Pairwise (fun a b => a.number < b.number)) :
    (get_nearest_left_key_frame [] frameId = (0, 0)) ∧
    (∀ e ∈ manifest, e.number ≤ frameId →
      ∃ k ∈ manifest, k.number ≤ frameId ∧
        (∀ e2 ∈ manifest, e2.number ≤ frameId → e2.number ≤ k.number) ∧
        get_nearest_left_key_frame manifest frameId = (k.number, k.pts)) := by
  refine ⟨rfl, ?_⟩
  induction manifest with
  | nil => intro e he; exact absurd he (List.not_mem_nil e)
  | cons a rest ih =>
    intro e he hle
    have hpa : a.number ≤ frameId := by
      rcases List.mem_cons.mp he with rfl | hmem
      · exact hle
      · have := (List.pairwise_cons.mp hsorted).1 e hmem
        omega
    have hsrest : rest.Pairwise (fun a b => a.number < b.number) :=
      (List.pairwise_cons.mp hsorted).2
    by_cases hrest : ∃ e2 ∈ rest, e2.number ≤ frameId
    · obtain ⟨e2, he2, hle2⟩ := hrest
      obtain ⟨k, hk, hkle, hkmax, hkeq⟩ := ih hsrest e2 he2 hle2
      refine ⟨k, List.mem_cons_of_mem a hk, hkle, ?_, ?_⟩
      · intro e3 he3 hle3
        rcases List.mem_cons.mp he3 with rfl | hmem
        · have := (List.pairwise_cons.mp hsorted).1 k hk
          omega
        · exact hkmax e3 hmem hle3
      · have hposrest : bisectByNumber rest frameId ≠ 0 := by
          unfold bisectByNumber
          intro hzero
          have hnil := List.eq_nil_of_length_eq_zero hzero
          cases hr : rest with
          | nil => rw [hr] at he2; exact absurd he2 (List.not_mem_nil e2)
          | cons b rbs =>
            rw [hr] at hnil he2 hsrest
            have hpb : b.number ≤ frameId := by
              rcases List.mem_cons.mp he2 with rfl | hmem
              · exact hle2
              · have := (List.pairwise_cons.mp hsrest).1 e2 hmem
                omega
            rw [List.takeWhile_cons, if_pos (by simpa using hpb)] at hnil
            exact List.cons_ne_nil _ _ hnil
        rw [get_nearest_cons_shift a rest frameId hpa hposrest]
        exact hkeq
    · push_neg at hrest
      have hb0 : bisectByNumber rest frameId = 0 := by
        unfold bisectByNumber
        cases hr : rest with
        | nil => simp
        | cons b rbs =>
          rw [List.takeWhile_cons, if_neg]
          · rfl
          · simp only [decide_eq_true_eq]
            have := hrest b (by rw [hr]; exact List.mem_cons_self b rbs)
            omega
      refine ⟨a, List.mem_cons_self a rest, hpa, ?_, ?_⟩
      · intro e3 he3 hle3
        rcases List.mem_cons.mp he3 with rfl | hmem
        · omega
        · exact absurd hle3 (by have := hrest e3 hmem; omega)
      · exact get_nearest_cons_head a rest frameId hpa hb0

/-- C6 witness: keyframe index `[(0,0), (50,T1), (100,T2)]` with request 75
seeks keyframe 50 (with its timestamp), and the empty manifest yields
`(0, 0)`. -/
theorem nearest_left_key_frame_correct_witness :
    get_nearest_left_key_frame [] 75 = (0, 0) ∧
      get_nearest_left_key_frame
        [⟨0, 0⟩, ⟨50, 1111⟩, ⟨100, 2222⟩] 75 = (50, 1111) := by
  have h := nearest_left_key_frame_correct
    [⟨0, 0⟩, ⟨50, 1111⟩, ⟨100, 2222⟩] 75 (by simp)
  refine ⟨h.1, ?_⟩
  obtain ⟨k, hk, hkle, hkmax, hkeq⟩ := h.2 ⟨50, 1111⟩ (by simp) (by simp)
  have hk50 : k = ⟨50, 1111⟩ := by
    have h100 : k.number ≤ 75 := hkle
    have h50 : (50 : Nat) ≤ k.number := hkmax ⟨50, 1111⟩ (by simp) (by simp)
    rcases List.mem_cons.mp hk with rfl | hk2
    · simp at h50
    · rcases List.mem_cons.mp hk2 with rfl | hk3
      · rfl
      · rcases List.mem_cons.mp hk3 with rfl | hk4
        · simp at h100
        · exact absurd hk4 (List.not_mem_nil k)
  rw [hkeq, hk50]

/-! ## VideoReader.iterate_frames / get_frame_count (lines 587-751)

The decoded video stream is modelled as the list of frames the codec yields
in decode order; the per-frame pixel work (rotation correction via the
external `rotate_image`) is an abstract function on frames.  The frame
filter is an iterator of ascending target indices; `iterate_frames`
constructs it from the argument exactly as the source does, including the
two Python truthiness quirks: `if self._stop:` (a configured stop of `0` or
`None` leaves the arithmetic filter unbounded) and `elif not frame_filter:`
(an explicitly passed empty list is falsy and selects ALL frames). -/

/-- The live frame-filter iterator: either `itertools.count(next, step)`
optionally bounded by `takewhile(lambda x: x <= stop, ...)`, or an explicit
list of remaining target indices. -/
inductive FrameFilterIter where
  | arith (next step : Nat) (stop : Option Nat)
  | explicitList (rest : List Nat)
deriving Repr, DecidableEq

/-- `next(frame_filter_iter, None)`. -/
def ffNext : FrameFilterIter → Option (Nat × FrameFilterIter)
  | .arith n s stop =>
    match stop with
    | some st => if n ≤ st then some (n, .arith (n + s) s (some st)) else none
    | none => some (n, .arith (n + s) s none)
  | .explicitList [] => none
  | .explicitList (x :: xs) => some (x, .explicitList xs)

/-- The `frame_filter` argument of `VideoReader.iterate_frames`:
`True` (use the reader's configured range), a falsy value (`False`/`None`:
all frames), or an explicit ascending list of target indices. -/
inductive FrameFilterArg where
  | config : FrameFilterArg
  | allFrames : FrameFilterArg
  | explicitList : List Nat → FrameFilterArg

/-- `VideoReader` state: the decoded stream content, the rotation metadata
(`video_stream.metadata.get('rotate')`) with the external `rotate_image`
abstracted as `rotateImage`, the configured range, and the
`self._frame_count` memo. -/
structure VideoReader (α : Type) where
  stream : List α
  rotate : Option Int
  rotateImage : α → Int → α
  start : Nat
  stop : Option Nat
  step : Nat
  frameCount : Option Nat

/-- Filter construction at the top of `iterate_frames`:
`True -> count(start, step)` bounded by `stop` only when `self._stop` is
truthy; falsy (including an empty explicit list, because of
`elif not frame_filter:`) -> `count()`. -/
def framesFilterOf (r : VideoReader α) : FrameFilterArg → FrameFilterIter
  | .config =>
    .arith r.start r.step (match r.stop with
      | some s => if s ≠ 0 then some s else none
      | none => none)
  | .allFrames => .arith 0 1 none
  | .explicitList l => if l.isEmpty then .arith 0 1 none else .explicitList l

/-- The decode loop of `iterate_frames`: walk the decoded stream with a
zero-based frame counter; when the counter equals the next requested index,
emit the (rotation-corrected) frame and pull the next index; stop once the
filter iterator is exhausted. -/
def iterateLoop (r : VideoReader α) : List α → Nat → Nat → FrameFilterIter → List α
  | [], _, _, _ => []
  | frame :: rest, frameNumber, nextTarget, filt =>
    if frameNumber = nextTarget then
      let out := match r.rotate with
        | some angle => r.rotateImage frame (360 - angle)
        | none => frame
      match ffNext filt with
      | none => [out]
      | some (nt1, filt1) => out :: iterateLoop r rest (frameNumber + 1) nt1 filt1
    else
      iterateLoop r rest (frameNumber + 1) nextTarget filt

/-- `VideoReader.iterate_frames(frame_filter=...)` as the list of emitted
frames. -/
def iterate_frames (r : VideoReader α) (arg : FrameFilterArg) : List α :=
  match ffNext (framesFilterOf r arg) with
  | none => []
  | some (nt, filt1) => iterateLoop r r.stream 0 nt filt1

/-- `VideoReader.get_frame_count()` (lines 729-751): return the memo when
set, otherwise count every frame of `iterate_frames(frame_filter=False)`
and memoize the result. -/
def get_frame_count (r : VideoReader α) : Nat × VideoReader α :=
  match r.frameCount with
  | some n => (n, r)
  | none =>
    (((iterate_frames r .allFrames).length),
      { r with frameCount := some (iterate_frames r .allFrames).length })

theorem iterateLoop_all_length (r : VideoReader α) (stream : List α) (k : Nat) :
    (iterateLoop r stream k k (.arith (k + 1) 1 none)).length = stream.length := by
  induction stream generalizing k with
  | nil => rfl
  | cons frame rest ih =>
    unfold iterateLoop
    rw [if_pos rfl]
    have hnext : ffNext (.arith (k + 1) 1 none) =
        some (k + 1, .arith (k + 2) 1 none) := rfl
    rw [hnext]
    simp only [List.length_cons]
    rw [ih (k + 1)]

theorem iterate_frames_all (r : VideoReader α) :
    (iterate_frames r .allFrames).length = r.stream.length := by
  unfold iterate_frames framesFilterOf
  have hnext : ffNext (.arith 0 1 none) = some (0, .arith 1 1 none) := rfl
  rw [hnext]
  exact iterateLoop_all_length r r.stream 0

/-- C10: `get_frame_count` returns the number of frames in the whole decoded
stream, for every configured `(start, stop, step)` — the configured range is
not consulted (`frame_filter=False` selects all frames) — and the result is
memoized: on a state whose memo is set, the call returns the memo and leaves
the state unchanged, so every later call returns the same number. -/
theorem videoReader_frame_count (α : Type) (stream : List α) (rotate : Option Int)
    (rotateImage : α → Int → α) (start : Nat) (stop : Option Nat) (step : Nat) :
    (get_frame_count ⟨stream, rotate, rotateImage, start, stop, step, none⟩).1 =
        stream.length ∧
      (get_frame_count ⟨stream, rotate, rotateImage, start, stop, step, none⟩).2.frameCount =
        some stream.length ∧
      ∀ (s : VideoReader α) (n : Nat), s.frameCount = some n →
        get_frame_count s = (n, s) := by
  refine ⟨?_, ?_, ?_⟩
  · unfold get_frame_count
    simp only
    exact iterate_frames_all _
  · unfold get_frame_count
    simp only
    rw [iterate_frames_all _]
  · intro s n hmemo
    unfold get_frame_count
    rw [hmemo]

/-- C10 witness: a three-frame stream under configuration
`start=5, stop=9, step=2` counts 3 frames; a reader whose memo is already 7
returns 7 and is left unchanged. -/
theorem videoReader_frame_count_witness :
    (get_frame_count (⟨[10, 20, 30], none, fun a _ => a, 5, some 9, 2, none⟩ :
        VideoReader Nat)).1 = 3 ∧
      get_frame_count (⟨[10, 20, 30], none, fun a _ => a, 5, some 9, 2, some 7⟩ :
          VideoReader Nat) =
        (7, ⟨[10, 20, 30], none, fun a _ => a, 5, some 9, 2, some 7⟩) := by
  constructor
  · exact (videoReader_frame_count Nat [10, 20, 30] none (fun a _ => a) 5 (some 9) 2).1
  · exact (videoReader_frame_count Nat [10, 20, 30] none (fun a _ => a) 5 (some 9) 2).2.2
      ⟨[10, 20, 30], none, fun a _ => a, 5, some 9, 2, some 7⟩ 7 rfl

/-! ## Chunk writers (lines 835-1127)

The per-frame image work of the zip writers (PIL re-encode, EXIF transpose,
TIFF handling, point-cloud header probing) is performed by external
libraries; it is abstracted as a caller-supplied per-frame processing
function producing the archive-entry extension and content (and, for the
recompressed writer, the probed `(width, height)`).  The writers' own logic
— enumeration, `{:06d}.{ext}` naming, the empty-input behavior, returned
size metadata — is embedded from the source.  An `.error` result models an
exception propagating out of `save_as_chunk`; for the video writers this
happens before any packet is muxed, and PyAV only opens the output file when
encoding starts, so an `.error` means nothing was written at the chunk
path. -/

/-- `'{:06d}.{}'.format(idx, ext)`. -/
def chunkArcname (idx : Nat) (ext : String) : String :=
  let s := toString idx
  String.mk (List.replicate (6 - s.length) '0') ++ s ++ "." ++ ext

/-- One entry written into a chunk archive. -/
structure ZipEntry where
  arcname : String
  content : List Nat
deriving Repr, DecidableEq

/-- The enumeration loop of `ZipChunkWriter.save_as_chunk` starting at
index `idx`:  each frame is turned into an `(extension, content)` pair by
the abstracted per-frame processing and written as `{:06d}.{ext}`. -/
def ZipChunkWriter.saveLoop (processFrame : φ → Except String (String × List Nat)) :
    List φ → Nat → Except String (List ZipEntry)
  | [], _ => .ok []
  | img :: rest, idx =>
    match processFrame img with
    | .error e => .error e
    | .ok (ext, content) =>
      match ZipChunkWriter.saveLoop processFrame rest (idx + 1) with
      | .error e => .error e
      | .ok entries => .ok (⟨chunkArcname idx ext, content⟩ :: entries)

/-- `ZipChunkWriter.save_as_chunk(images, chunk_path)` (lines 908-957):
writes one archive entry per frame and returns the empty list (`return []`
— this writer produces no per-frame size metadata). -/
def ZipChunkWriter.save_as_chunk (processFrame : φ → Except String (String × List Nat))
    (images : List φ) : Except String (List ZipEntry × List (Nat × Nat)) :=
  match ZipChunkWriter.saveLoop processFrame images 0 with
  | .error e => .error e
  | .ok entries => .ok (entries, [])

/-- The enumeration loop of `ZipCompressedChunkWriter.save_as_chunk`: the
abstracted per-frame processing also yields the probed `(width, height)`,
collected into `image_sizes`. -/
def ZipCompressedChunkWriter.saveLoop
    (processFrame : φ → Except String (Nat × Nat × String × List Nat)) :
    List φ → Nat → Except String (List ZipEntry × List (Nat × Nat))
  | [], _ => .ok ([], [])
  | img :: rest, idx =>
    match processFrame img with
    | .error e => .error e
    | .ok (w, h, ext, content) =>
      match ZipCompressedChunkWriter.saveLoop processFrame rest (idx + 1) with
      | .error e => .error e
      | .ok (entries, sizes) =>
        .ok (⟨chunkArcname idx ext, content⟩ :: entries, (w, h) :: sizes)

/-- `ZipCompressedChunkWriter.save_as_chunk(images, chunk_path)`
(lines 959-986): returns the collected `(width, height)` list. -/
def ZipCompressedChunkWriter.save_as_chunk
    (processFrame : φ → Except String (Nat × Nat × String × List Nat))
    (images : List φ) : Except String (List ZipEntry × List (Nat × Nat)) :=
  ZipCompressedChunkWriter.saveLoop processFrame images 0

/-- `Mpeg4ChunkWriter.MAX_MBS_PER_FRAME`. -/
def MAX_MBS_PER_FRAME : Nat := 36864

/-- A decoded video frame as the video chunk writers see it: its geometry. -/
structure VFrame where
  width : Nat
  height : Nat
deriving Repr, DecidableEq

/-- The `Mpeg4ChunkWriter.__init__` quality translation
`round(51 * (100 - quality) / 99)`: Python `round` is round-half-to-even,
but `51 * (100 - q) / 99` never lands exactly on a half (a tie would need
`2 * 51 * (100 - q) ≡ 99 (mod 198)`, impossible since the left side is
even and the right side odd), so it equals rounding to nearest, i.e.
`floor((2n + 99) / 198)` for `n = 51 * (100 - q)`. -/
def mpeg4ImageQuality (quality : Int) : Int :=
  (2 * (51 * (100 - quality)) + 99).fdiv 198

/-- `if h % 2: h += 1` / `if w % 2: w += 1` in `_add_video_stream`. -/
def evenUp (n : Nat) : Nat := if n % 2 ≠ 0 then n + 1 else n

/-- The user-facing `ValidationError` message of `_add_video_stream`. -/
def resolutionError : String :=
  "The video codec being used does not support such high video resolution"

/-- `Mpeg4ChunkWriter._add_video_stream(container, w, h, rate, options)`
(lines 1014-1033): round both dimensions up to even, then reject with
`ValidationError` when `h * w > MAX_MBS_PER_FRAME << 8`; otherwise the
stream is configured with the rounded geometry. -/
def add_video_stream (w h : Nat) : Except String (Nat × Nat) :=
  if MAX_MBS_PER_FRAME <<< 8 < evenUp h * evenUp w then .error resolutionError
  else .ok (evenUp w, evenUp h)

/-- The muxed output of a successful video chunk encode: the configured
stream geometry and the encoded frames. -/
structure EncodedChunk where
  geometry : Nat × Nat
  frames : List VFrame
deriving Repr, DecidableEq

/-- `Mpeg4ChunkWriter.save_as_chunk(images, chunk_path)` (lines 1048-1070):
peek the first frame (`raise Exception('no images to save')` on an empty
sequence), add the video stream (which may reject the resolution), then
encode; on success the returned size metadata is the single original
`(width, height)`. -/
def Mpeg4ChunkWriter.save_as_chunk (quality : Int) (images : List VFrame) :
    Except String (List (Nat × Nat) × EncodedChunk) :=
  match images with
  | [] => .error "no images to save"
  | first :: _ =>
    match add_video_stream first.width first.height with
    | .error e => .error e
    | .ok wh => .ok ([(first.width, first.height)], ⟨wh, images⟩)

/-- The `while input_h / downscale_factor >= 1080: downscale_factor *= 2`
loop of `Mpeg4CompressedChunkWriter.save_as_chunk` (real division:
`h / f >= 1080` iff `1080 * f <= h`); the factor starts at 1. -/
def downscaleLoop (h : Nat) (f : Nat) (hf : 0 < f) : Nat :=
  if 1080 * f ≤ h then downscaleLoop h (2 * f) (by omega) else f
termination_by h + 1 - f
decreasing_by omega

/-- `Mpeg4CompressedChunkWriter.save_as_chunk(images, chunk_path)`
(lines 1100-1127): like the base writer but encodes at the repeatedly
halved geometry while still reporting the original `(width, height)`. -/
def Mpeg4CompressedChunkWriter.save_as_chunk (quality : Int) (images : List VFrame) :
    Except String (List (Nat × Nat) × EncodedChunk) :=
  match images with
  | [] => .error "no images to save"
  | first :: _ =>
    let factor := downscaleLoop first.height 1 (by omega)
    match add_video_stream (first.width / factor) (first.height / factor) with
    | .error e => .error e
    | .ok wh => .ok ([(first.width, first.height)], ⟨wh, images⟩)

/-- C4: for every quality value and every frame sequence whose first frame,
after rounding each dimension up to even, exceeds the fixed
`36864 << 8` pixel ceiling, `Mpeg4ChunkWriter.save_as_chunk` fails with the
resolution-overflow `ValidationError`.  The check fires in
`_add_video_stream`, before any packet is muxed; PyAV opens the output file
only when encoding starts, so no output file is written at the chunk path —
in the embedding, the `.error` result carries no `EncodedChunk`. -/
theorem mpeg4_resolution_overflow_rejected (quality : Int) (first : VFrame)
    (rest : List VFrame)
    (hres : MAX_MBS_PER_FRAME <<< 8 < evenUp first.height * evenUp first.width) :
    Mpeg4ChunkWriter.save_as_chunk quality (first :: rest) = .error resolutionError := by
  simp only [Mpeg4ChunkWriter.save_as_chunk, add_video_stream, if_pos hres]

/-- C4 witness: a 4000x2500 first frame (10,000,000 pixels, above the
9,437,184 ceiling) is rejected at any quality. -/
theorem mpeg4_resolution_overflow_rejected_witness :
    MAX_MBS_PER_FRAME <<< 8 < evenUp 2500 * evenUp 4000 ∧
      Mpeg4ChunkWriter.save_as_chunk 67 [⟨4000, 2500⟩] = .error resolutionError := by
  constructor
  · decide
  · exact mpeg4_resolution_overflow_rejected 67 ⟨4000, 2500⟩ [] (by decide)

/-- C9 counterexample: `ZipChunkWriter.save_as_chunk` on an empty frame
sequence does NOT fail — it writes a fully-formed empty archive and returns
`[]` — contradicting the claim that all writers raise `NoFramesToEncode`. -/
theorem zip_writer_accepts_empty_sequence :
    ZipChunkWriter.save_as_chunk (fun _ : Unit => .ok ("jpeg", [])) [] =
      .ok ([], []) := rfl

/-- C9 (amended): on an empty frame sequence the two video chunk writers
fail with the `'no images to save'` error (raised before the output
container is opened), while the two zip chunk writers succeed, producing a
fully-written-and-closed empty archive and an empty size list.  In both
cases there is no partially-written usable output: the video writers
produce nothing and the zip writers a complete (empty) archive. -/
theorem chunk_writers_empty_sequence (φ₁ φ₂ : Type) (quality : Int)
    (pf1 : φ₁ → Except String (String × List Nat))
    (pf2 : φ₂ → Except String (Nat × Nat × String × List Nat)) :
    Mpeg4ChunkWriter.save_as_chunk quality [] = .error "no images to save" ∧
      Mpeg4CompressedChunkWriter.save_as_chunk quality [] = .error "no images to save" ∧
      ZipChunkWriter.save_as_chunk pf1 [] = .ok ([], []) ∧
      ZipCompressedChunkWriter.save_as_chunk pf2 [] = .ok ([], []) :=
  ⟨rfl, rfl, rfl, rfl⟩

/-! ## ValidateDimension.convert_bin_to_pcd (lines 1240-1273)

The `.bin` file content is a byte stream (`List Nat`, one element per byte).
The read loop `byte = f.read(16); while byte: struct.unpack("ffff", byte)`
consumes complete 16-byte records and raises `struct.error` on a trailing
partial record.  The numeric round trip applied to each record —
`struct.unpack("ffff")` to Python floats, `np.asarray` (float64),
`astype('float32').tobytes()` — is a per-record byte transformation
performed by external libraries; it is abstracted as the `roundtrip`
parameter (for IEEE-754 data it is the identity on every non-signaling-NaN
payload: float32 to float64 and back is exact).  The text header is written
line by line (each line terminated with a newline) before the binary
payload is appended. -/

/-- The `byte = f.read(16) / while byte / struct.unpack` loop: split the
input byte stream into complete 16-byte records; `none` models the
`struct.error` raised on a trailing partial record. -/
def readRecords (bytes : List Nat) : Option (List (List Nat)) :=
  match bytes with
  | [] => some []
  | b :: bs =>
    if h : ((b :: bs).take 16).length = 16 then
      match readRecords ((b :: bs).drop 16) with
      | some rest => some ((b :: bs).take 16 :: rest)
      | none => none
    else none
termination_by bytes.length
decreasing_by
  simp only [List.length_take, List.length_cons, List.length_drop] at h ⊢
  omega

/-- The `write_header` lines of `convert_bin_to_pcd`, in order, without the
trailing newline each line receives. -/
def pcdHeaderLines (width height : Nat) : List String :=
  ["VERSION 0.7",
   "FIELDS x y z intensity",
   "SIZE 4 4 4 4",
   "TYPE F F F F",
   "COUNT 1 1 1 1",
   "WIDTH " ++ toString width,
   "HEIGHT " ++ toString height,
   "VIEWPOINT 0 0 0 1 0 0 0",
   "POINTS " ++ toString (width * height),
   "DATA binary"]

/-- `ValidateDimension.convert_bin_to_pcd(path)`: parse the `.bin` byte
stream into records, write the header with `width = np_pcd.shape[0]` (the
record count) and `height = 1`, then append
`np_pcd.astype('float32').tobytes()` — the concatenation of the per-record
numeric round trips.  The produced `.pcd` file is modelled as its header
lines paired with its binary tail. -/
def convert_bin_to_pcd (roundtrip : List Nat → List Nat) (binBytes : List Nat) :
    Option (List String × List Nat) :=
  match readRecords binBytes with
  | none => none
  | some records =>
    some (pcdHeaderLines records.length 1, (records.map roundtrip).flatten)

theorem readRecords_flatten (records : List (List Nat))
    (hlen : ∀ r ∈ records, r.length = 16) :
    readRecords records.flatten = some records := by
  induction records with
  | nil => simp [readRecords]
  | cons r rest ih =>
    have hr : r.length = 16 := hlen r (List.mem_cons_self r rest)
    have hih := ih (fun x hx => hlen x (List.mem_cons_of_mem r hx))
    have htake : (r ++ rest.flatten).take 16 = r := List.take_left' hr
    have hdrop : (r ++ rest.flatten).drop 16 = rest.flatten := List.drop_left' hr
    rw [List.flatten_cons]
    cases hr2 : r with
    | nil => rw [hr2] at hr; simp at hr
    | cons b bs =>
      rw [hr2] at htake hdrop hr
      rw [List.cons_append] at htake hdrop ⊢
      simp only [readRecords, htake, hdrop]
      rw [dif_pos hr, hih]

/-- C8: converting a `.bin` stream of N complete 16-byte
`(x, y, z, intensity)` float32 records — on which the external
float32/float64 round trip is byte-preserving — produces a `.pcd` file whose
header is exactly the ten literal lines with `WIDTH N`, `HEIGHT 1`,
`POINTS N`, and whose binary tail is byte-identical to the original record
stream. -/
theorem convert_bin_to_pcd_header_and_payload (records : List (List Nat))
    (roundtrip : List Nat → List Nat)
    (hlen : ∀ r ∈ records, r.length = 16)
    (hrt : ∀ r ∈ records, roundtrip r = r) :
    convert_bin_to_pcd roundtrip records.flatten =
      some (["VERSION 0.7",
             "FIELDS x y z intensity",
             "SIZE 4 4 4 4",
             "TYPE F F F F",
             "COUNT 1 1 1 1",
             "WIDTH " ++ toString records.length,
             "HEIGHT 1",
             "VIEWPOINT 0 0 0 1 0 0 0",
             "POINTS " ++ toString records.length,
             "DATA binary"],
            records.flatten) := by
  have hmap : records.map roundtrip = records := by
    calc records.map roundtrip = records.map id := List.map_congr_left hrt
    _ = records := List.map_id records
  unfold convert_bin_to_pcd
  rw [readRecords_flatten records hlen]
  simp [hmap, pcdHeaderLines]
  rfl

/-- C8 witness: two concrete 16-byte records (with the identity round trip)
convert to a header declaring `WIDTH 2`, `HEIGHT 1`, `POINTS 2` followed by
the original 32 bytes. -/
theorem convert_bin_to_pcd_header_and_payload_witness :
    convert_bin_to_pcd (fun r => r)
        ([[0, 1, 2, 3, 4, 5, 6, 7, 8, 9, 10, 11, 12, 13, 14, 15],
          [255, 254, 253, 252, 251, 250, 249, 248, 247, 246, 245, 244, 243, 242, 241, 240]].flatten) =
      some (["VERSION 0.7",
             "FIELDS x y z intensity",
             "SIZE 4 4 4 4",
             "TYPE F F F F",
             "COUNT 1 1 1 1",
             "WIDTH 2",
             "HEIGHT 1",
             "VIEWPOINT 0 0 0 1 0 0 0",
             "POINTS 2",
             "DATA binary"],
            [[0, 1, 2, 3, 4, 5, 6, 7, 8, 9, 10, 11, 12, 13, 14, 15],
             [255, 254, 253, 252, 251, 250, 249, 248, 247, 246, 245, 244, 243, 242, 241, 240]].flatten) := by
  have h := convert_bin_to_pcd_header_and_payload
    [[0, 1, 2, 3, 4, 5, 6, 7, 8, 9, 10, 11, 12, 13, 14, 15],
     [255, 254, 253, 252, 251, 250, 249, 248, 247, 246, 245, 244, 243, 242, 241, 240]]
    (fun r => r) (by decide) (fun r _ => rfl)
  simpa using h

end MediaExtractors
